import Mathlib

/-
Verification of the link-selection engine of semanticlink-js.

The definitions below are a shallow embedding of `src/filter.ts` (class
`LinkUtil` and its helpers) and of the transport-facing `link` function of
`src/http.ts`.  JavaScript union-typed inputs are modelled by inductive
types whose constructors correspond exactly to the runtime shape tests the
source performs; JavaScript exceptions are modelled with `Except String`;
`undefined`-able values with `Option`.
-/

namespace SemanticLink

/-- A JavaScript `RegExp`, modelled abstractly by its "matches anywhere"
test: `r.test v` stands for the truthiness of `v.match(r)` in the source. -/
structure JSRegExp where
  test : String → Bool

/-- A `string | RegExp` value, as used for `LinkSelector.rel`,
`LinkSelector.mediaType` and `LinkSelector.title` in the source. -/
inductive StrPat where
  | s (v : String)
  | re (r : JSRegExp)

/-- A link (interface `Link` of `src/interfaces.ts`): `rel` and `href` are
mandatory strings (an absent field of an untyped caller behaves as the empty
string under the source's truthiness guards), `type` and `title` are
optional. -/
structure Link where
  rel : String
  href : String
  type : Option String
  title : Option String
deriving DecidableEq

/-- Search criteria (interface `LinkSelector`): a mandatory relation
matcher plus optional media-type and title matchers.  `none` models a
`null`/`undefined` (absent) field. -/
structure LinkSelector where
  rel : StrPat
  mediaType : Option StrPat
  title : Option StrPat

/-- One element of a relationship-type array, classified the way the
source's runtime shape tests classify it: a string, a `RegExp`, a value
accepted by `instanceOfLinkSelector` (an object with a defined `rel`), or
any other value (`junk`: `null`, a number, an object without `rel`, ...). -/
inductive RelItem where
  | str (s : String)
  | regex (r : JSRegExp)
  | sel (ls : LinkSelector)
  | junk

/-- A `RelationshipType` argument, classified the way `makeSelectors`
dispatches on it: a string, a `RegExp`, a structured selector, an array of
items, or any other unsupported value (`junk`). -/
inductive RelInput where
  | str (s : String)
  | regex (r : JSRegExp)
  | sel (ls : LinkSelector)
  | arr (items : List RelItem)
  | junk

/-- Type guard `instanceOfLinkSelector` on an array element: true exactly
for the values classified as structured selectors (the source checks the
item is not `null`/`undefined`/`''` and has a defined `rel`). -/
def instanceOfLinkSelector : RelItem → Bool
  | .sel _ => true
  | _ => false

/-- The message of the error thrown by `makeSelectors`. -/
def UnsupportedSelectorMsg : String := "Unsupported link relationship selector"

/-- Weighted match record used inside `filterLinks`. -/
structure WeightedMatch where
  link : Link
  weight : Nat
deriving DecidableEq

/-- The sentinel `MaxWeight = 99999` ("no match") of the source. -/
def MaxWeight : Nat := 99999

/-- `LinkUtil.matchParameter(linkString, matchString)`: the boolean
disjunction of the source, clause by clause.  For a `RegExp` matcher the
string-equality clauses `matchString === '*'`, `matchString === '*/*'` and
`linkString === matchString` are `false` in JavaScript (a string is never
`===` a `RegExp` object), leaving the regex clause and the
`linkString === '*/*'` clause. -/
def matchParameter (linkString : String) (matchString : StrPat) : Bool :=
  match matchString with
  | .re r => (!(linkString == "") && r.test linkString) || linkString == "*/*"
  | .s m => m == "*" || m == "*/*" || linkString == "*/*" || linkString == m

/-- Helper for the `isNullOrUndefined(selector.title)` (respectively
`selector.mediaType`) short-circuit in `matchSingle`: an absent matcher is
"not required" (true), otherwise `matchParameter` decides. -/
def matchOptParameter (v : String) : Option StrPat → Bool
  | none => true
  | some p => matchParameter v p

/-- `matchSingle(link, selector)` (local function of `filterLinks`): the
relation must match, and the title and media-type constraints hold when
absent or when `matchParameter` accepts `link.title || ''` respectively
`link.type || ''`. -/
def matchSingle (link : Link) (selector : LinkSelector) : Bool :=
  matchParameter link.rel selector.rel
    && matchOptParameter (link.title.getD "") selector.title
    && matchOptParameter (link.type.getD "") selector.mediaType

/-- Conversion of one array element by the `.map` inside `makeSelectors`:
strings and regexes pick up the legacy positional `mediaType`, structured
selectors pass through unchanged, anything else throws. -/
def makeSelectorItem (mediaType : Option String) : RelItem → Except String LinkSelector
  | .str s => .ok ⟨.s s, mediaType.map .s, none⟩
  | .regex r => .ok ⟨.re r, mediaType.map .s, none⟩
  | .sel ls => .ok ls
  | .junk => .error UnsupportedSelectorMsg

/-- The element-wise `.map` of `makeSelectors` over a heterogeneous array,
with the JavaScript exception of the first unsupported element propagated. -/
def mapSelectors (mediaType : Option String) : List RelItem → Except String (List LinkSelector)
  | [] => .ok []
  | item :: rest => do
    let s ← makeSelectorItem mediaType item
    let ss ← mapSelectors mediaType rest
    .ok (s :: ss)

/-- Projection of a structured-selector element (used for the homogeneous
`rels.every(instanceOfLinkSelector)` branch, which returns the array
unchanged). -/
def RelItem.selOf : RelItem → Option LinkSelector
  | .sel ls => some ls
  | _ => none

/-- `LinkUtil.makeSelectors(rels, mediaType)`, branch for branch: a string
or `RegExp` becomes a singleton selector carrying the positional
`mediaType`; a structured selector becomes a singleton (its own fields are
authoritative); an array is returned unchanged when homogeneously
structured selectors, otherwise mapped element-wise; anything else throws
`Unsupported link relationship selector`. -/
def makeSelectors (rels : RelInput) (mediaType : Option String) : Except String (List LinkSelector) :=
  match rels with
  | .str s => .ok [⟨.s s, mediaType.map .s, none⟩]
  | .regex r => .ok [⟨.re r, mediaType.map .s, none⟩]
  | .sel ls => .ok [ls]
  | .arr items =>
      if items.all instanceOfLinkSelector then
        .ok (items.filterMap RelItem.selOf)
      else
        mapSelectors mediaType items
  | .junk => .error UnsupportedSelectorMsg

/-- The selector-scanning `for` loop of `filterLinks`: starting at index
`selectorIndex`, the index of the first selector matching `link`, or
`MaxWeight` when the loop falls through. -/
def firstMatch (link : Link) (selectors : List LinkSelector) (selectorIndex : Nat) : Nat :=
  match selectors with
  | [] => MaxWeight
  | s :: rest =>
      if matchSingle link s then selectorIndex else firstMatch link rest (selectorIndex + 1)

/-- The eligibility guard `if (link.href && link.rel)` of `filterLinks`:
both strings truthy, that is non-empty. -/
def eligible (link : Link) : Bool :=
  !(link.href == "") && !(link.rel == "")

/-- The body of the `.map` of `filterLinks`: a link with truthy `href` and
`rel` gets the index of its first matching selector as weight, any other
link the sentinel `MaxWeight`. -/
def toWeighted (selectors : List LinkSelector) (link : Link) : WeightedMatch :=
  if eligible link then
    ⟨link, firstMatch link selectors 0⟩
  else
    ⟨link, MaxWeight⟩

/-- One insertion step of the stable sort: the element is placed before the
first element of greater-or-equal... strictly greater-or-equal comparison:
before the first element whose weight is not smaller, so that earlier input
elements precede later ones of equal weight. -/
def insertByWeight (x : WeightedMatch) : List WeightedMatch → List WeightedMatch
  | [] => [x]
  | y :: ys => if y.weight < x.weight then y :: insertByWeight x ys else x :: y :: ys

/-- Model of the ECMAScript stable `Array.prototype.sort` with comparator
`(l, r) => l.weight - r.weight`: elements in non-decreasing weight order,
ties keeping their original relative order (insertion sort from the right
is such a stable sort). -/
def sortByWeight : List WeightedMatch → List WeightedMatch
  | [] => []
  | x :: xs => insertByWeight x (sortByWeight xs)

/-- `LinkUtil.filterLinks(links, rels, mediaType)`: normalize the selectors
(possibly throwing), weight every link by the index of the first selector
it matches, discard the `MaxWeight` (invalid or unmatched) links, stably
sort by weight and drop the weights. -/
def filterLinks (links : List Link) (rels : RelInput) (mediaType : Option String) :
    Except String (List Link) := do
  let selectors ← makeSelectors rels mediaType
  let weighted := links.map (toWeighted selectors)
  let matched := weighted.filter (fun m => m.weight < MaxWeight)
  return (sortByWeight matched).map WeightedMatch.link

/-- The host environment of `filter`'s DOM branches: whether the code runs
in a browser (`isBrowser`), and the flat link lists the external DOM
provider (`filterDom`) harvests from the document head respectively from a
given element for a relationship type. -/
structure DomEnv where
  isBrowser : Bool
  headLinks : RelInput → List Link
  elementLinks : RelInput → List Link

/-- A `LinkType` argument of `filter`, classified the way `filter`'s
runtime shape tests classify it: a JavaScript array of links; an object
whose `links` field is an array (accepted by
`instanceOfLinkedRepresentation`); any other truthy non-string object that
is not a DOM element (its `links` absent or not an array); a string (the
sentinel `'HEAD'` is special-cased); a DOM element; `null`/`undefined`; a
number. -/
inductive LinkSource where
  | arr (links : List Link)
  | reprWithLinks (links : List Link)
  | objOther
  | str (s : String)
  | element
  | nullish
  | num (n : Int)

/-- Type guard `instanceOfLinkedRepresentation`: a truthy non-string value
whose `links` field is an array. -/
def instanceOfLinkedRepresentation : LinkSource → Bool
  | .reprWithLinks _ => true
  | _ => false

/-- `LinkUtil.filter(arg, relationshipType, mediaType)`: dispatch on the
shape of the source.  An array of links and a linked representation are
filtered directly; the string `'HEAD'` and (in a browser) a DOM element are
delegated to the DOM provider and the harvested links filtered; every
other shape yields the empty list. -/
def filter (env : DomEnv) (arg : LinkSource) (relationshipType : RelInput)
    (mediaType : Option String) : Except String (List Link) :=
  match arg with
  | .arr links => filterLinks links relationshipType mediaType
  | .reprWithLinks links => filterLinks links relationshipType mediaType
  | .str s =>
      if s == "HEAD" then filterLinks (env.headLinks relationshipType) relationshipType mediaType
      else .ok []
  | .element =>
      if env.isBrowser then
        filterLinks (env.elementLinks relationshipType) relationshipType mediaType
      else .ok []
  | _ => .ok []

/-- `LinkUtil.getUri(links, relationshipType, mediaType, defaultValue)`:
the `href` of the first filtered link, or the supplied `defaultValue`
(modelled `Option String`; `none` is an omitted argument) on a miss. -/
def getUri (env : DomEnv) (links : LinkSource) (relationshipType : RelInput)
    (mediaType : Option String) (defaultValue : Option String) :
    Except String (Option String) :=
  (filter env links relationshipType mediaType).map fun
    | l :: _ => some l.href
    | [] => defaultValue

/-- `LinkUtil.getTitle(links, relationshipType, mediaType)`: the
`title || ''` of the first filtered link, or the empty string on a miss. -/
def getTitle (env : DomEnv) (links : LinkSource) (relationshipType : RelInput)
    (mediaType : Option String) : Except String String :=
  (filter env links relationshipType mediaType).map fun
    | l :: _ => l.title.getD ""
    | [] => ""

/-- `LinkUtil.matches(links, relationshipType, mediaType)`: whether the
filtered list is non-empty.  (Named `matchesFn` because `matches` is a
reserved word in Lean.) -/
def matchesFn (env : DomEnv) (links : LinkSource) (relationshipType : RelInput)
    (mediaType : Option String) : Except String Bool :=
  (filter env links relationshipType mediaType).map fun ls => decide (ls.length > 0)

/-- Outcome of the transport-facing `link` call of `src/http.ts`: either
exactly one HTTP request is issued, to the given URL, or no request is
issued and the returned promise is rejected with the given message. -/
inductive TransportOutcome where
  | request (url : String)
  | rejected (message : String)
deriving DecidableEq

/-- The rejection message of `link`. -/
def interfaceErrorMsg : String := "The resource doesn't support the required interface"

/-- `link(links, relationshipType, mediaType, verb, data, cancellable)` of
`src/http.ts`: destructure the first filtered link; when it exists and has
a truthy `href`, issue one `httpRequest` to its `href`; otherwise reject
with `interfaceErrorMsg`.  The verb, body and cancellation token do not
influence which (or whether a) request is made, so they are not modelled. -/
def link (env : DomEnv) (links : LinkSource) (relationshipType : RelInput)
    (mediaType : Option String) : Except String TransportOutcome :=
  (filter env links relationshipType mediaType).map fun
    | item :: _ =>
        if !(item.href == "") then .request item.href else .rejected interfaceErrorMsg
    | [] => .rejected interfaceErrorMsg

/-- A non-browser environment with no DOM links, for concrete examples. -/
def noDom : DomEnv := ⟨false, fun _ => [], fun _ => []⟩

/-- Index of the first selector matching a link, if any (spec-side view of
the scanning loop, without the sentinel). -/
def firstMatchIdx (link : Link) : List LinkSelector → Option Nat
  | [] => none
  | s :: rest =>
      if matchSingle link s then some 0 else (firstMatchIdx link rest).map (· + 1)

/-- Follows the spec's words (section 4.3, matching algorithm), as the
refinement comparand for claim C1: the links with `href` and `rel` present
that match at least one selector, grouped by the index of the first
matching selector in ascending order, keeping source order inside each
group, with the weight metadata dropped. -/
def specResolve (links : List Link) (selectors : List LinkSelector) : List Link :=
  (List.range selectors.length).flatMap fun i =>
    links.filter fun l => eligible l && (firstMatchIdx l selectors == some i)

/-- Follows the spec's words (section 4.2, `matchField` policy), as the
comparand for claim C2: regex containment on a non-empty candidate, or a
wildcard matcher `*`/`*/*`, or the wildcard candidate `*/*`, or exact
string equality. -/
def matchFieldSpec (candidate : String) (pat : StrPat) : Prop :=
  (∃ r, pat = .re r ∧ candidate ≠ "" ∧ r.test candidate = true) ∨
    pat = .s "*" ∨ pat = .s "*/*" ∨ candidate = "*/*" ∨
    (∃ m, pat = .s m ∧ candidate = m)

/-- Follows the spec's words (section 4.2, `matchLink`), as the comparand
for claim C2: the relation must match, and each of the title and
media-type constraints is absent or accepted by the field matcher on the
defaulted link field. -/
def matchLinkSpec (l : Link) (sel : LinkSelector) : Prop :=
  matchFieldSpec l.rel sel.rel ∧
    (sel.title = none ∨ ∃ p, sel.title = some p ∧ matchFieldSpec (l.title.getD "") p) ∧
    (sel.mediaType = none ∨ ∃ p, sel.mediaType = some p ∧ matchFieldSpec (l.type.getD "") p)

end SemanticLink

namespace SemanticLink

/- Equation lemmas for the match-defined functions. -/

theorem insertByWeight_nil (x : WeightedMatch) : insertByWeight x [] = [x] := rfl

theorem insertByWeight_cons (x y : WeightedMatch) (ys : List WeightedMatch) :
    insertByWeight x (y :: ys) =
      if y.weight < x.weight then y :: insertByWeight x ys else x :: y :: ys := rfl

theorem sortByWeight_nil : sortByWeight [] = [] := rfl

theorem sortByWeight_cons (x : WeightedMatch) (xs : List WeightedMatch) :
    sortByWeight (x :: xs) = insertByWeight x (sortByWeight xs) := rfl

/- Generic list helpers. -/

theorem list_flatMap_congr {α β : Type} {l : List α} {f g : α → List β}
    (h : ∀ a ∈ l, f a = g a) : l.flatMap f = l.flatMap g := by
  induction l with
  | nil => rfl
  | cons a l ih =>
      rw [List.flatMap_cons, List.flatMap_cons, h a (List.mem_cons_self a l),
        ih fun a ha => h a (List.mem_cons.mpr (Or.inr ha))]

theorem list_map_flatMap {α β γ : Type} (g : β → γ) (f : α → List β) (l : List α) :
    (l.flatMap f).map g = l.flatMap fun a => (f a).map g := by
  induction l with
  | nil => rfl
  | cons a l ih => rw [List.flatMap_cons, List.flatMap_cons, List.map_append, ih]

/- Structure of the stable sort. -/

theorem insertByWeight_of_not_lt (x : WeightedMatch) (l : List WeightedMatch)
    (h : ∀ y ∈ l, ¬ y.weight < x.weight) : insertByWeight x l = x :: l := by
  cases l with
  | nil => rfl
  | cons y ys => rw [insertByWeight_cons, if_neg (h y (List.mem_cons_self y ys))]

theorem insertByWeight_append_left (x : WeightedMatch) (A B : List WeightedMatch)
    (h : ∀ y ∈ A, y.weight < x.weight) :
    insertByWeight x (A ++ B) = A ++ insertByWeight x B := by
  induction A with
  | nil => rfl
  | cons a A ih =>
      rw [List.cons_append, insertByWeight_cons, if_pos (h a (List.mem_cons_self a A)),
        ih fun y hy => h y (List.mem_cons.mpr (Or.inr hy)), List.cons_append]

theorem insertByWeight_append_right (x : WeightedMatch) (A B : List WeightedMatch)
    (h : ∀ y ∈ B, ¬ y.weight < x.weight) :
    insertByWeight x (A ++ B) = insertByWeight x A ++ B := by
  induction A with
  | nil => rw [List.nil_append, insertByWeight_nil, insertByWeight_of_not_lt x B h]; rfl
  | cons a A ih =>
      by_cases ha : a.weight < x.weight
      · rw [List.cons_append, insertByWeight_cons, if_pos ha, ih, insertByWeight_cons,
          if_pos ha, List.cons_append]
      · rw [List.cons_append, insertByWeight_cons, if_neg ha, insertByWeight_cons,
          if_neg ha, List.cons_append, List.cons_append]

/-- Inserting an element into the ascending concatenation of weight groups
prepends it to its own weight group. -/
theorem insertByWeight_groups (n : Nat) (x : WeightedMatch) (g : Nat → List WeightedMatch)
    (hx : x.weight < n) (hg : ∀ i, ∀ y ∈ g i, y.weight = i) :
    insertByWeight x ((List.range n).flatMap g) =
      (List.range n).flatMap fun i => if x.weight = i then x :: g i else g i := by
  induction n with
  | zero => exact absurd hx (Nat.not_lt_zero _)
  | succ m ih =>
      rw [List.range_succ, List.flatMap_append, List.flatMap_append]
      rw [List.flatMap_cons, List.flatMap_nil, List.append_nil,
        List.flatMap_cons, List.flatMap_nil, List.append_nil]
      by_cases hxm : x.weight = m
      · rw [insertByWeight_append_left x _ (g m)
            (by
              intro y hy
              obtain ⟨i, hi, hyi⟩ := List.mem_flatMap.mp hy
              rw [hg i y hyi, hxm]
              exact List.mem_range.mp hi)]
        rw [insertByWeight_of_not_lt x (g m)
            (fun y hy => by rw [hg m y hy, hxm]; exact Nat.lt_irrefl m)]
        rw [if_pos hxm]
        congr 1
        exact (list_flatMap_congr fun i hi => by
          rw [if_neg (by rw [hxm]; exact Nat.ne_of_gt (List.mem_range.mp hi))]).symm
      · have hxlt : x.weight < m := Nat.lt_of_le_of_ne (Nat.le_of_lt_succ hx) hxm
        rw [insertByWeight_append_right x _ (g m)
            (fun y hy => by rw [hg m y hy]; exact Nat.not_lt.mpr (Nat.le_of_lt hxlt))]
        rw [ih hxlt, if_neg hxm]

/-- The stable sort of a list of weighted matches, all of weight below `n`,
is the ascending concatenation of its weight groups. -/
theorem sortByWeight_eq_groups (ws : List WeightedMatch) (n : Nat)
    (h : ∀ w ∈ ws, w.weight < n) :
    sortByWeight ws = (List.range n).flatMap fun i => ws.filter fun w => w.weight == i := by
  induction ws with
  | nil =>
      rw [sortByWeight_nil]
      exact (List.flatMap_eq_nil_iff.mpr fun i _ => List.filter_nil _).symm
  | cons x ws ih =>
      have hx : x.weight < n := h x (List.mem_cons_self x ws)
      have hrest : ∀ w ∈ ws, w.weight < n :=
        fun w hw => h w (List.mem_cons.mpr (Or.inr hw))
      rw [sortByWeight_cons, ih hrest]
      rw [insertByWeight_groups n x _ hx
          (fun i y hy => beq_iff_eq.mp (List.mem_filter.mp hy).2)]
      exact list_flatMap_congr fun i hi => by
        by_cases hxi : x.weight = i
        · rw [if_pos hxi, List.filter_cons, if_pos (by simp [hxi])]
        · rw [if_neg hxi, List.filter_cons, if_neg (by simp [hxi])]

end SemanticLink

namespace SemanticLink

/- Equation lemmas for the weighting loop. -/

theorem firstMatch_nil (link : Link) (i : Nat) : firstMatch link [] i = MaxWeight := rfl

theorem firstMatch_cons (link : Link) (s : LinkSelector) (rest : List LinkSelector) (i : Nat) :
    firstMatch link (s :: rest) i =
      if matchSingle link s then i else firstMatch link rest (i + 1) := rfl

theorem firstMatchIdx_nil (link : Link) : firstMatchIdx link [] = none := rfl

theorem firstMatchIdx_cons (link : Link) (s : LinkSelector) (rest : List LinkSelector) :
    firstMatchIdx link (s :: rest) =
      if matchSingle link s then some 0 else (firstMatchIdx link rest).map (· + 1) := rfl

/-- When no selector matches, the scanning loop falls through to the
sentinel. -/
theorem firstMatch_of_none (link : Link) (sels : List LinkSelector) (i : Nat)
    (h : firstMatchIdx link sels = none) : firstMatch link sels i = MaxWeight := by
  induction sels generalizing i with
  | nil => rfl
  | cons s rest ih =>
      rw [firstMatchIdx_cons] at h
      by_cases hm : matchSingle link s
      · rw [if_pos hm] at h; exact absurd h (by simp)
      · rw [if_neg hm] at h
        rw [firstMatch_cons, if_neg hm]
        cases hrest : firstMatchIdx link rest with
        | none => exact ih (i + 1) hrest
        | some j => rw [hrest] at h; exact absurd h (by simp)

/-- When the first matching selector has index `j`, the scanning loop
started at `i` returns `i + j`. -/
theorem firstMatch_of_idx (link : Link) (sels : List LinkSelector) (i j : Nat)
    (h : firstMatchIdx link sels = some j) : firstMatch link sels i = i + j := by
  induction sels generalizing i j with
  | nil => exact absurd h (by simp [firstMatchIdx_nil])
  | cons s rest ih =>
      rw [firstMatchIdx_cons] at h
      by_cases hm : matchSingle link s
      · rw [if_pos hm] at h
        rw [firstMatch_cons, if_pos hm]
        cases h; rfl
      · rw [if_neg hm] at h
        rw [firstMatch_cons, if_neg hm]
        cases hrest : firstMatchIdx link rest with
        | none => rw [hrest] at h; exact absurd h (by simp)
        | some j' =>
            rw [hrest] at h
            simp only [Option.map_some'] at h
            cases h
            rw [ih (i + 1) j' hrest]
            omega

/-- The index of the first matching selector is an index into the selector
list. -/
theorem firstMatchIdx_lt_length (link : Link) (sels : List LinkSelector) (j : Nat)
    (h : firstMatchIdx link sels = some j) : j < sels.length := by
  induction sels generalizing j with
  | nil => exact absurd h (by simp [firstMatchIdx_nil])
  | cons s rest ih =>
      rw [firstMatchIdx_cons] at h
      by_cases hm : matchSingle link s
      · rw [if_pos hm] at h; cases h; simp
      · rw [if_neg hm] at h
        cases hrest : firstMatchIdx link rest with
        | none => rw [hrest] at h; exact absurd h (by simp)
        | some j' =>
            rw [hrest] at h
            simp only [Option.map_some'] at h
            cases h
            simpa using Nat.succ_lt_succ (ih j' hrest)

/-- Every weighted match surviving the `weight < MaxWeight` filter owes its
weight to an actual selector index, hence is below the selector count. -/
theorem matched_weight_lt (links : List Link) (sels : List LinkSelector) :
    ∀ w ∈ (links.map (toWeighted sels)).filter fun m => decide (m.weight < MaxWeight),
      w.weight < sels.length := by
  intro w hw
  obtain ⟨hwm, hcond⟩ := List.mem_filter.mp hw
  obtain ⟨l, _, rfl⟩ := List.mem_map.mp hwm
  rw [toWeighted] at hcond ⊢
  by_cases he : eligible l
  · rw [if_pos he] at hcond ⊢
    cases hidx : firstMatchIdx l sels with
    | none =>
        rw [show firstMatch l sels 0 = MaxWeight from firstMatch_of_none l sels 0 hidx] at hcond
        simp at hcond
    | some j =>
        have hj := firstMatch_of_idx l sels 0 j hidx
        simp only [hj, Nat.zero_add]
        exact firstMatchIdx_lt_length l sels j hidx
  · rw [if_neg he] at hcond
    simp at hcond

/-- Extracting one weight group from the filtered weighted list and
dropping the weights yields the links whose first matching selector has
exactly that index, in source order. -/
theorem weighted_group_eq (links : List Link) (sels : List LinkSelector) (i : Nat)
    (hi : i < MaxWeight) :
    (((links.map (toWeighted sels)).filter fun m => decide (m.weight < MaxWeight)).filter
        fun w => w.weight == i).map WeightedMatch.link
      = links.filter fun l => eligible l && (firstMatchIdx l sels == some i) := by
  induction links with
  | nil => rfl
  | cons l links ih =>
      rw [List.map_cons]
      by_cases he : eligible l
      · cases hidx : firstMatchIdx l sels with
        | none =>
            have hw : toWeighted sels l = ⟨l, MaxWeight⟩ := by
              rw [toWeighted, if_pos he, firstMatch_of_none l sels 0 hidx]
            rw [hw, List.filter_cons, if_neg (by simp), List.filter_cons,
              if_neg (by simp [he, hidx]), ih]
        | some j =>
            have hw : toWeighted sels l = ⟨l, j⟩ := by
              rw [toWeighted, if_pos he, firstMatch_of_idx l sels 0 j hidx, Nat.zero_add]
            by_cases hj : j < MaxWeight
            · rw [hw, List.filter_cons, if_pos (by simpa using hj)]
              by_cases hji : j = i
              · rw [List.filter_cons, if_pos (by simpa using hji), List.map_cons,
                  List.filter_cons, if_pos (by simp [he, hidx, hji]), ih]
              · rw [List.filter_cons, if_neg (by simpa using hji), List.filter_cons,
                  if_neg (by simp [he, hidx, hji]), ih]
            · have hji : ¬ j = i := fun hji => hj (hji ▸ hi)
              rw [hw, List.filter_cons, if_neg (by simpa using hj), List.filter_cons,
                if_neg (by simp [he, hidx, hji]), ih]
      · have hw : toWeighted sels l = ⟨l, MaxWeight⟩ := by rw [toWeighted, if_neg he]
        rw [hw, List.filter_cons, if_neg (by simp), List.filter_cons,
          if_neg (by simp [he]), ih]

/-- Central refinement lemma: on a successfully normalized selector list of
at most `MaxWeight` selectors, `filterLinks` computes exactly the
spec-ordered resolution. -/
theorem filterLinks_eq_specResolve (links : List Link) (rels : RelInput) (mt : Option String)
    (sels : List LinkSelector) (hsels : makeSelectors rels mt = .ok sels)
    (hlen : sels.length ≤ MaxWeight) :
    filterLinks links rels mt = .ok (specResolve links sels) := by
  rw [filterLinks, hsels]
  show Except.ok ((sortByWeight _).map _) = _
  rw [sortByWeight_eq_groups _ sels.length (matched_weight_lt links sels), list_map_flatMap]
  rw [specResolve]
  exact congrArg Except.ok (list_flatMap_congr fun i hi =>
    weighted_group_eq links sels i (Nat.lt_of_lt_of_le (List.mem_range.mp hi) hlen))

/- Replicated-prefix lemmas, used to evaluate the engine on a selector
array longer than the sentinel weight without unfolding 100000 cells. -/

theorem mapSelectors_replicate (mt : Option String) (item : RelItem) (sel : LinkSelector)
    (h : makeSelectorItem mt item = .ok sel) (n : Nat) (rest : List RelItem) :
    mapSelectors mt (List.replicate n item ++ rest) =
      (mapSelectors mt rest).map fun ss => List.replicate n sel ++ ss := by
  induction n with
  | zero =>
      rw [List.replicate_zero, List.nil_append]
      cases hrest : mapSelectors mt rest with
      | ok ss => rfl
      | error e => rfl
  | succ m ih =>
      rw [List.replicate_succ, List.cons_append]
      show (do
        let s ← makeSelectorItem mt item
        let ss ← mapSelectors mt (List.replicate m item ++ rest)
        (.ok (s :: ss) : Except String (List LinkSelector))) = _
      rw [h, ih]
      cases hrest : mapSelectors mt rest with
      | ok ss => rfl
      | error e => rfl

theorem firstMatch_replicate (link : Link) (sel : LinkSelector)
    (h : matchSingle link sel = false) (n : Nat) (rest : List LinkSelector) (i : Nat) :
    firstMatch link (List.replicate n sel ++ rest) i = firstMatch link rest (n + i) := by
  induction n generalizing i with
  | zero => rw [List.replicate_zero, List.nil_append, Nat.zero_add]
  | succ m ih =>
      rw [List.replicate_succ, List.cons_append, firstMatch_cons, if_neg (by simp [h]),
        ih (i + 1)]
      congr 1
      omega

/-- The relationship-type array of `MaxWeight + 1` entries used to refute
the unrestricted claim C1: 99999 copies of the string `'a'` followed by the
string `'b'`. -/
def bigRelItems : List RelItem := List.replicate MaxWeight (.str "a") ++ [.str "b"]

/-- The array input built from `bigRelItems`. -/
def bigRels : RelInput := .arr bigRelItems

/-- Normalization of the string `'a'` at wildcard media type. -/
def selA : LinkSelector := ⟨.s "a", none, none⟩

/-- Normalization of the string `'b'` at wildcard media type. -/
def selB : LinkSelector := ⟨.s "b", none, none⟩

/-- The normalized selectors of `bigRels`. -/
def bigSels : List LinkSelector := List.replicate MaxWeight selA ++ [selB]

/-- A valid link whose first (and only) matching selector in `bigSels` is
the one at index `MaxWeight`. -/
def linkB : Link := ⟨"b", "urn:example:b", none, none⟩

theorem makeSelectors_bigRels : makeSelectors bigRels none = .ok bigSels := by
  have hall : bigRelItems.all instanceOfLinkSelector = false := by
    rw [bigRelItems, List.all_append]
    simp [instanceOfLinkSelector]
  show (if bigRelItems.all instanceOfLinkSelector then
      .ok (bigRelItems.filterMap RelItem.selOf) else mapSelectors none bigRelItems) = _
  rw [hall, if_neg (by simp), bigRelItems,
    mapSelectors_replicate none (.str "a") selA rfl MaxWeight [.str "b"]]
  rfl

theorem firstMatch_linkB : firstMatch linkB bigSels 0 = MaxWeight := by
  rw [bigSels, firstMatch_replicate linkB selA rfl MaxWeight [selB] 0,
    firstMatch_cons, if_pos (by rfl)]
  rfl

theorem filterLinks_linkB : filterLinks [linkB] bigRels none = .ok [] := by
  rw [filterLinks, makeSelectors_bigRels]
  show Except.ok ((sortByWeight (([linkB].map (toWeighted bigSels)).filter
    fun m => decide (m.weight < MaxWeight))).map WeightedMatch.link) = _
  have hw : toWeighted bigSels linkB = ⟨linkB, MaxWeight⟩ := by
    rw [toWeighted, if_pos (show eligible linkB = true from rfl), firstMatch_linkB]
  rw [List.map_cons, List.map_nil, hw, List.filter_cons,
    if_neg (by simp), List.filter_nil]
  rfl

/- Single-selector resolution, used for the media-type claims. -/

/-- The relationship-type input carrying a bare pattern (a string or a
regular expression). -/
def relOfPat : StrPat → RelInput
  | .s s => .str s
  | .re r => .regex r

theorem makeSelectors_pat (p : StrPat) (mt : Option String) :
    makeSelectors (relOfPat p) mt = .ok [⟨p, mt.map .s, none⟩] := by
  cases p <;> rfl

theorem list_filter_filter {α : Type} (p q : α → Bool) (l : List α) :
    (l.filter p).filter q = l.filter fun a => p a && q a := by
  induction l with
  | nil => rfl
  | cons a l ih => by_cases hp : p a <;> by_cases hq : q a <;>
      simp [List.filter_cons, hp, hq, ih]

/-- Resolution against one selector is a plain filter in source order. -/
theorem specResolve_single (links : List Link) (sel : LinkSelector) :
    specResolve links [sel] = links.filter fun l => eligible l && matchSingle l sel := by
  rw [specResolve]
  show (List.range 1).flatMap _ = _
  rw [show List.range 1 = [0] from rfl, List.flatMap_cons, List.flatMap_nil, List.append_nil]
  congr 1
  funext l
  rw [firstMatchIdx_cons, firstMatchIdx_nil]
  cases hm : matchSingle l sel <;> simp [hm]

/- Wildcard positional media types. -/

/-- The three positional media-type arguments the spec calls
wildcard-equivalent: `undefined`, `'*'` and `'*/*'`. -/
def WildMT (mt : Option String) : Prop := mt = none ∨ mt = some "*" ∨ mt = some "*/*"

theorem matchOptParameter_wild (mt : Option String) (h : WildMT mt) (t : String) :
    matchOptParameter t (mt.map .s) = true := by
  rcases h with h | h | h <;> subst h <;> rfl

/-- Equivalence of selectors that differ only in an always-accepting
media-type constraint. -/
def selEquiv (s1 s2 : LinkSelector) : Prop :=
  s1.rel = s2.rel ∧ s1.title = s2.title ∧
    ∀ t, matchOptParameter t s1.mediaType = matchOptParameter t s2.mediaType

theorem selEquiv_refl (s : LinkSelector) : selEquiv s s := ⟨rfl, rfl, fun _ => rfl⟩

theorem matchSingle_congr (l : Link) {s1 s2 : LinkSelector} (h : selEquiv s1 s2) :
    matchSingle l s1 = matchSingle l s2 := by
  obtain ⟨hr, ht, hm⟩ := h
  rw [matchSingle, matchSingle, hr, ht, hm]

theorem firstMatch_congr (l : Link) {ss1 ss2 : List LinkSelector}
    (h : List.Forall₂ selEquiv ss1 ss2) (i : Nat) :
    firstMatch l ss1 i = firstMatch l ss2 i := by
  induction h generalizing i with
  | nil => rfl
  | cons hsel _ ih => rw [firstMatch_cons, firstMatch_cons, matchSingle_congr l hsel, ih]

/-- Equivalence of two normalization outcomes: same error, or selector
lists equivalent element-wise. -/
def selectorsEquiv : Except String (List LinkSelector) → Except String (List LinkSelector) → Prop
  | .ok l1, .ok l2 => List.Forall₂ selEquiv l1 l2
  | .error e1, .error e2 => e1 = e2
  | _, _ => False

theorem makeSelectorItem_wild {mt1 mt2 : Option String} (h1 : WildMT mt1) (h2 : WildMT mt2)
    (item : RelItem) :
    (∃ s1 s2, makeSelectorItem mt1 item = .ok s1 ∧ makeSelectorItem mt2 item = .ok s2 ∧
        selEquiv s1 s2) ∨
      (makeSelectorItem mt1 item = .error UnsupportedSelectorMsg ∧
        makeSelectorItem mt2 item = .error UnsupportedSelectorMsg) := by
  cases item with
  | str s =>
      exact Or.inl ⟨_, _, rfl, rfl, rfl, rfl, fun t => by
        rw [matchOptParameter_wild mt1 h1 t, matchOptParameter_wild mt2 h2 t]⟩
  | regex r =>
      exact Or.inl ⟨_, _, rfl, rfl, rfl, rfl, fun t => by
        rw [matchOptParameter_wild mt1 h1 t, matchOptParameter_wild mt2 h2 t]⟩
  | sel ls => exact Or.inl ⟨ls, ls, rfl, rfl, selEquiv_refl ls⟩
  | junk => exact Or.inr ⟨rfl, rfl⟩

theorem mapSelectors_wild {mt1 mt2 : Option String} (h1 : WildMT mt1) (h2 : WildMT mt2)
    (items : List RelItem) :
    selectorsEquiv (mapSelectors mt1 items) (mapSelectors mt2 items) := by
  induction items with
  | nil => exact List.Forall₂.nil
  | cons item rest ih =>
      show selectorsEquiv (do
          let s ← makeSelectorItem mt1 item
          let ss ← mapSelectors mt1 rest
          (.ok (s :: ss) : Except String (List LinkSelector)))
        (do
          let s ← makeSelectorItem mt2 item
          let ss ← mapSelectors mt2 rest
          (.ok (s :: ss) : Except String (List LinkSelector)))
      rcases makeSelectorItem_wild h1 h2 item with ⟨s1, s2, e1, e2, hs⟩ | ⟨e1, e2⟩
      · rw [e1, e2]
        cases hr1 : mapSelectors mt1 rest with
        | ok l1 =>
            cases hr2 : mapSelectors mt2 rest with
            | ok l2 =>
                rw [hr1, hr2] at ih
                exact List.Forall₂.cons hs ih
            | error m2 => rw [hr1, hr2] at ih; exact ih.elim
        | error m1 =>
            cases hr2 : mapSelectors mt2 rest with
            | ok l2 => rw [hr1, hr2] at ih; exact ih.elim
            | error m2 => rw [hr1, hr2] at ih; exact ih
      · rw [e1, e2]; rfl

theorem makeSelectors_wild {mt1 mt2 : Option String} (h1 : WildMT mt1) (h2 : WildMT mt2)
    (rels : RelInput) :
    selectorsEquiv (makeSelectors rels mt1) (makeSelectors rels mt2) := by
  cases rels with
  | str s =>
      exact List.Forall₂.cons
        ⟨rfl, rfl, fun t => by
          rw [matchOptParameter_wild mt1 h1 t, matchOptParameter_wild mt2 h2 t]⟩
        List.Forall₂.nil
  | regex r =>
      exact List.Forall₂.cons
        ⟨rfl, rfl, fun t => by
          rw [matchOptParameter_wild mt1 h1 t, matchOptParameter_wild mt2 h2 t]⟩
        List.Forall₂.nil
  | sel ls => exact List.Forall₂.cons (selEquiv_refl ls) List.Forall₂.nil
  | junk => rfl
  | arr items =>
      show selectorsEquiv
        (if items.all instanceOfLinkSelector then .ok (items.filterMap RelItem.selOf)
          else mapSelectors mt1 items)
        (if items.all instanceOfLinkSelector then .ok (items.filterMap RelItem.selOf)
          else mapSelectors mt2 items)
      by_cases hall : items.all instanceOfLinkSelector
      · rw [if_pos hall, if_pos hall]
        exact List.forall₂_same.mpr fun s _ => selEquiv_refl s
      · rw [if_neg hall, if_neg hall]
        exact mapSelectors_wild h1 h2 items

theorem filterLinks_mt_congr (links : List Link) (rels : RelInput) {mt1 mt2 : Option String}
    (h : selectorsEquiv (makeSelectors rels mt1) (makeSelectors rels mt2)) :
    filterLinks links rels mt1 = filterLinks links rels mt2 := by
  cases e1 : makeSelectors rels mt1 with
  | error m1 =>
      cases e2 : makeSelectors rels mt2 with
      | error m2 =>
          rw [e1, e2] at h
          have hm : m1 = m2 := h
          rw [filterLinks, filterLinks, e1, e2, hm]
      | ok l2 => rw [e1, e2] at h; exact h.elim
  | ok l1 =>
      cases e2 : makeSelectors rels mt2 with
      | error m2 => rw [e1, e2] at h; exact h.elim
      | ok l2 =>
          rw [e1, e2] at h
          have hw : toWeighted l1 = toWeighted l2 := funext fun l => by
            rw [toWeighted, toWeighted, firstMatch_congr l h 0]
          rw [filterLinks, filterLinks, e1, e2]
          show Except.ok _ = Except.ok _
          rw [hw]

theorem filter_mt_congr (env : DomEnv) (arg : LinkSource) (rels : RelInput)
    {mt1 mt2 : Option String} (h1 : WildMT mt1) (h2 : WildMT mt2) :
    filter env arg rels mt1 = filter env arg rels mt2 := by
  have hfl : ∀ links, filterLinks links rels mt1 = filterLinks links rels mt2 :=
    fun links => filterLinks_mt_congr links rels (makeSelectors_wild h1 h2 rels)
  cases arg <;> simp only [filter, hfl]

/- Membership through the stable sort, for the eligibility invariant. -/

theorem mem_insertByWeight {y x : WeightedMatch} {l : List WeightedMatch} :
    y ∈ insertByWeight x l ↔ y = x ∨ y ∈ l := by
  induction l with
  | nil => rw [insertByWeight_nil]; simp
  | cons z zs ih =>
      rw [insertByWeight_cons]
      by_cases h : z.weight < x.weight
      · rw [if_pos h]
        simp only [List.mem_cons, ih]
        tauto
      · rw [if_neg h]; simp [List.mem_cons]

theorem mem_sortByWeight {y : WeightedMatch} {l : List WeightedMatch} :
    y ∈ sortByWeight l ↔ y ∈ l := by
  induction l with
  | nil => rw [sortByWeight_nil]
  | cons x xs ih =>
      rw [sortByWeight_cons, mem_insertByWeight, ih]
      simp [List.mem_cons]

/-- Every link produced by `filterLinks` passed the `href && rel` guard. -/
theorem filterLinks_mem_eligible (links : List Link) (rels : RelInput) (mt : Option String)
    (out : List Link) (h : filterLinks links rels mt = .ok out) :
    ∀ l ∈ out, eligible l = true := by
  intro l hl
  rw [filterLinks] at h
  cases hsel : makeSelectors rels mt with
  | error e => rw [hsel] at h; exact Except.noConfusion h
  | ok sels =>
      rw [hsel] at h
      have hout := Except.ok.inj h
      rw [← hout] at hl
      obtain ⟨w, hw, rfl⟩ := List.mem_map.mp hl
      have hw' := mem_sortByWeight.mp hw
      obtain ⟨hwm, hcond⟩ := List.mem_filter.mp hw'
      obtain ⟨l', _, heq⟩ := List.mem_map.mp hwm
      subst heq
      rw [toWeighted] at hcond ⊢
      by_cases he : eligible l'
      · rw [if_pos he]; exact he
      · rw [if_neg he] at hcond; simp [MaxWeight] at hcond

/-- Every link produced by `filter` passed the `href && rel` guard,
whatever the source shape. -/
theorem filter_mem_eligible (env : DomEnv) (arg : LinkSource) (rels : RelInput)
    (mt : Option String) (out : List Link) (h : filter env arg rels mt = .ok out) :
    ∀ l ∈ out, eligible l = true := by
  cases arg with
  | arr links => exact filterLinks_mem_eligible links rels mt out h
  | reprWithLinks links => exact filterLinks_mem_eligible links rels mt out h
  | str s =>
      rw [filter] at h
      by_cases hs : s == "HEAD"
      · rw [if_pos hs] at h
        exact filterLinks_mem_eligible _ rels mt out h
      · rw [if_neg hs] at h
        rw [← Except.ok.inj h]
        intro l hl
        exact absurd hl (List.not_mem_nil l)
  | element =>
      rw [filter] at h
      by_cases hb : env.isBrowser
      · rw [if_pos hb] at h
        exact filterLinks_mem_eligible _ rels mt out h
      · rw [if_neg hb] at h
        rw [← Except.ok.inj h]
        intro l hl
        exact absurd hl (List.not_mem_nil l)
  | objOther =>
      rw [← Except.ok.inj h]
      intro l hl
      exact absurd hl (List.not_mem_nil l)
  | nullish =>
      rw [← Except.ok.inj h]
      intro l hl
      exact absurd hl (List.not_mem_nil l)
  | num n =>
      rw [← Except.ok.inj h]
      intro l hl
      exact absurd hl (List.not_mem_nil l)


/- Characterization of the field matcher for claim C2. -/

theorem matchParameter_iff_spec (v : String) (p : StrPat) :
    matchParameter v p = true ↔ matchFieldSpec v p := by
  cases p with
  | s m =>
      simp only [matchParameter, matchFieldSpec]
      simp
      tauto
  | re r =>
      simp only [matchParameter, matchFieldSpec]
      simp

theorem matchSingle_iff_spec (l : Link) (sel : LinkSelector) :
    matchSingle l sel = true ↔ matchLinkSpec l sel := by
  rw [matchSingle, matchLinkSpec]
  simp only [Bool.and_eq_true]
  constructor
  · rintro ⟨⟨hr, ht⟩, hm⟩
    refine ⟨(matchParameter_iff_spec _ _).mp hr, ?_, ?_⟩
    · cases hst : sel.title with
      | none => exact Or.inl rfl
      | some p =>
          rw [hst] at ht
          exact Or.inr ⟨p, rfl, (matchParameter_iff_spec _ _).mp ht⟩
    · cases hsm : sel.mediaType with
      | none => exact Or.inl rfl
      | some p =>
          rw [hsm] at hm
          exact Or.inr ⟨p, rfl, (matchParameter_iff_spec _ _).mp hm⟩
  · rintro ⟨hr, ht, hm⟩
    refine ⟨⟨(matchParameter_iff_spec _ _).mpr hr, ?_⟩, ?_⟩
    · rcases ht with ht | ⟨p, hp, hspec⟩
      · rw [ht]; rfl
      · rw [hp]; exact (matchParameter_iff_spec _ _).mpr hspec
    · rcases hm with hm | ⟨p, hp, hspec⟩
      · rw [hm]; rfl
      · rw [hp]; exact (matchParameter_iff_spec _ _).mpr hspec

/- Normalization error characterization for claim C6. -/

theorem mapSelectors_cons (mt : Option String) (item : RelItem) (rest : List RelItem) :
    mapSelectors mt (item :: rest) =
      (makeSelectorItem mt item).bind fun s =>
        (mapSelectors mt rest).bind fun ss => .ok (s :: ss) := rfl

theorem mapSelectors_error_iff (mt : Option String) (items : List RelItem) :
    (∃ msg, mapSelectors mt items = .error msg) ↔ RelItem.junk ∈ items := by
  induction items with
  | nil => simp [mapSelectors]
  | cons item rest ih =>
      rw [mapSelectors_cons]
      cases hitem : makeSelectorItem mt item with
      | error m =>
          have hj : item = RelItem.junk := by
            cases item
            · exact Except.noConfusion hitem
            · exact Except.noConfusion hitem
            · exact Except.noConfusion hitem
            · rfl
          subst hj
          constructor
          · intro _; exact List.mem_cons_self _ _
          · intro _; exact ⟨m, rfl⟩
      | ok sel' =>
          have hj : RelItem.junk ≠ item := by
            intro h; rw [← h] at hitem; exact Except.noConfusion hitem
          cases hrest : mapSelectors mt rest with
          | ok l =>
              rw [hrest] at ih
              constructor
              · rintro ⟨msg, hmsg⟩
                exact Except.noConfusion hmsg
              · intro hmem
                rcases List.mem_cons.mp hmem with h | h
                · exact absurd h hj
                · obtain ⟨msg, hmsg⟩ := ih.mpr h
                  exact Except.noConfusion hmsg
          | error m =>
              rw [hrest] at ih
              constructor
              · intro _
                exact List.mem_cons.mpr (Or.inr (ih.mp ⟨m, rfl⟩))
              · intro _
                exact ⟨m, rfl⟩

theorem makeSelectors_homogeneous (sels : List LinkSelector) (mt : Option String) :
    makeSelectors (.arr (sels.map RelItem.sel)) mt = .ok sels := by
  have hmap : (sels.map RelItem.sel).filterMap RelItem.selOf = sels := by
    induction sels with
    | nil => rfl
    | cons s ss ih =>
        rw [List.map_cons]
        rw [show (RelItem.sel s :: ss.map RelItem.sel).filterMap RelItem.selOf
          = s :: (ss.map RelItem.sel).filterMap RelItem.selOf from rfl, ih]
  have hall : (sels.map RelItem.sel).all instanceOfLinkSelector = true := by
    rw [List.all_eq_true]
    intro x hx
    obtain ⟨s, _, rfl⟩ := List.mem_map.mp hx
    rfl
  show (if (sels.map RelItem.sel).all instanceOfLinkSelector then
      .ok ((sels.map RelItem.sel).filterMap RelItem.selOf)
    else mapSelectors mt (sels.map RelItem.sel)) = _
  rw [if_pos hall, hmap]

/- Concrete fixtures for witnesses and counterexamples. -/

/-- A valid link with relation `A`. -/
def linkA1 : Link := ⟨"A", "urn:a", none, none⟩

/-- A valid link with relation `B`. -/
def linkB1 : Link := ⟨"B", "urn:b", none, none⟩

/-- A valid link with relation `a` and a specific media type. -/
def linkJson : Link := ⟨"a", "urn:one", some "application/json", none⟩

/-- A link with the relation `empty` and an empty `href`. -/
def emptyHrefLink : Link := ⟨"empty", "", none, none⟩

/-- C1 (amended): for every link array and every normalizable relation
input whose normalized selector list has at most `MaxWeight` (99999)
selectors, `filterLinks` returns exactly the links having a non-empty
`href` and `rel` that match at least one normalized selector, ordered by
the index of the first selector each link matches (ascending), links with
the same first-matching-selector index keeping their original relative
order, and without weight metadata — that is, it equals `specResolve`
written from the spec's words. -/
theorem claim_C1_amended (links : List Link) (rels : RelInput) (mt : Option String)
    (sels : List LinkSelector) (hsels : makeSelectors rels mt = .ok sels)
    (hlen : sels.length ≤ MaxWeight) :
    filterLinks links rels mt = .ok (specResolve links sels) :=
  filterLinks_eq_specResolve links rels mt sels hsels hlen

/-- C1 counterexample: with 100000 selectors (99999 copies of `'a'`
followed by `'b'`), a valid link matching only the final selector (index
99999 = `MaxWeight`) is dropped by the `weight < MaxWeight` filter, so
`filterLinks` returns the empty list even though the link has a non-empty
`href` and `rel` and matches a normalized selector — refuting the claim as
stated for every normalizable relation input. -/
theorem claim_C1_counterexample :
    makeSelectors bigRels none = .ok bigSels ∧
    eligible linkB = true ∧
    (∃ s ∈ bigSels, matchSingle linkB s = true) ∧
    filterLinks [linkB] bigRels none = .ok [] :=
  ⟨makeSelectors_bigRels, rfl,
    ⟨selB, List.mem_append.mpr (Or.inr (List.mem_singleton.mpr rfl)), rfl⟩,
    filterLinks_linkB⟩

/-- C1 witness: the spec's weighted-ordering scenario — selectors
`['A', 'B']` against sources `[B-link, A-link]` yield `[A-link, B-link]`:
selector order wins over source order. -/
theorem claim_C1_witness :
    filterLinks [linkB1, linkA1] (.arr [.str "A", .str "B"]) none = .ok [linkA1, linkB1] := by
  have h := claim_C1_amended [linkB1, linkA1] (.arr [.str "A", .str "B"]) none
    [⟨.s "A", none, none⟩, ⟨.s "B", none, none⟩] rfl (by decide)
  rw [h]
  rfl

/-- C2: a link matches a selector iff the relation matches and the title
and media-type constraints are absent or accepted on the defaulted link
fields; and the field matcher accepts exactly per the spec's priority
list: regex-containment on a non-empty candidate, wildcard matcher `*` or
`*/*`, wildcard candidate `*/*`, or exact string equality.  The same
matcher (`matchParameter`) is used for the rel, type and title fields, as
`matchSingle` shows. -/
theorem claim_C2 :
    (∀ (v : String) (p : StrPat), matchParameter v p = true ↔ matchFieldSpec v p) ∧
    (∀ (l : Link) (sel : LinkSelector), matchSingle l sel = true ↔ matchLinkSpec l sel) :=
  ⟨matchParameter_iff_spec, matchSingle_iff_spec⟩

/-- C3 counterexample: the empty-string media type is not
wildcard-equivalent.  For the source `[{rel:'a', href:'urn:one',
type:'application/json'}]` and relation `'a'`, `filter` with media type
`''` returns the empty list while `filter` with media type `undefined`
returns the link — the empty string does filter out a link. -/
theorem claim_C3_counterexample :
    filter noDom (.arr [linkJson]) (.str "a") (some "") = .ok [] ∧
    filter noDom (.arr [linkJson]) (.str "a") none = .ok [linkJson] :=
  ⟨rfl, rfl⟩

/-- C3 (amended): the empty-string media type is not wildcard-equivalent;
for a string or regular-expression relation input it adds the constraint
that the link's `type` (defaulted to `''`) be `''` or `'*/*'`:
`filterLinks(links, rel, '')` equals `filterLinks(links, rel, undefined)`
restricted to links of empty or fully-wildcard type.  (The values
`undefined`, `'*'` and `'*/*'` remain wildcard-equivalent, see C4.) -/
theorem claim_C3_amended (links : List Link) (p : StrPat) :
    filterLinks links (relOfPat p) (some "") =
      (filterLinks links (relOfPat p) none).map
        (List.filter fun l => l.type.getD "" == "" || l.type.getD "" == "*/*") := by
  rw [filterLinks_eq_specResolve links (relOfPat p) (some "") [⟨p, some (.s ""), none⟩]
      (makeSelectors_pat p (some "")) (by simp [MaxWeight]),
    filterLinks_eq_specResolve links (relOfPat p) none [⟨p, none, none⟩]
      (makeSelectors_pat p none) (by simp [MaxWeight])]
  show _ = Except.ok _
  rw [specResolve_single, specResolve_single, list_filter_filter]
  refine congrArg Except.ok (congrArg (fun f => List.filter f links) (funext fun l => ?_))
  show (eligible l && matchSingle l ⟨p, some (.s ""), none⟩)
    = ((eligible l && matchSingle l ⟨p, none, none⟩)
        && (l.type.getD "" == "" || l.type.getD "" == "*/*"))
  rw [matchSingle, matchSingle]
  show (eligible l && (matchParameter l.rel p && matchOptParameter (l.title.getD "") none
      && matchParameter (l.type.getD "") (.s "")))
    = ((eligible l && (matchParameter l.rel p && matchOptParameter (l.title.getD "") none
        && true)) && (l.type.getD "" == "" || l.type.getD "" == "*/*"))
  have hmt : matchParameter (l.type.getD "") (.s "")
      = (l.type.getD "" == "*/*" || l.type.getD "" == "") := by
    rw [matchParameter]
    rfl
  rw [hmt]
  cases eligible l <;> cases matchParameter l.rel p <;>
    cases hx : (l.type.getD "" == "*/*") <;> cases hy : (l.type.getD "" == "") <;>
      simp [matchOptParameter, hx, hy]

/-- C4: for every source and relation input, the three calls with media
type `undefined`, `'*'` and `'*/*'` return identical results (same links,
same order), `'*'` and `'*/*'` matchers accepting every link type and an
absent media type imposing no constraint. -/
theorem claim_C4 (env : DomEnv) (arg : LinkSource) (rels : RelInput) :
    filter env arg rels none = filter env arg rels (some "*") ∧
    filter env arg rels none = filter env arg rels (some "*/*") :=
  ⟨filter_mt_congr env arg rels (Or.inl rfl) (Or.inr (Or.inl rfl)),
    filter_mt_congr env arg rels (Or.inl rfl) (Or.inr (Or.inr rfl))⟩

/-- C5: a link with an empty (or, in untyped callers, missing — modelled
as empty) `href` or `rel` never appears in the output of `filter`, for
every environment, source, relation input and media type; consequently for
the representation `{links:[{rel:'empty',href:''}]}` the filter is empty
and `getUri` returns the supplied default `'fallback'`. -/
theorem claim_C5 :
    (∀ (env : DomEnv) (arg : LinkSource) (rels : RelInput) (mt : Option String)
        (out : List Link), filter env arg rels mt = .ok out →
      ∀ l ∈ out, l.href ≠ "" ∧ l.rel ≠ "") ∧
    (filter noDom (.reprWithLinks [emptyHrefLink]) (.str "empty") none = .ok [] ∧
      getUri noDom (.reprWithLinks [emptyHrefLink]) (.str "empty") none (some "fallback") =
        .ok (some "fallback")) := by
  refine ⟨fun env arg rels mt out h l hl => ?_, rfl, rfl⟩
  have he := filter_mem_eligible env arg rels mt out h l hl
  rw [eligible, Bool.and_eq_true] at he
  exact ⟨by simpa using he.1, by simpa using he.2⟩

/-- C5 witness: instantiating the invariant on a concrete hit shows the
returned link's `href` and `rel` are non-empty. -/
theorem claim_C5_witness : linkA1.href ≠ "" ∧ linkA1.rel ≠ "" :=
  claim_C5.1 noDom (.arr [linkA1]) (.str "A") none [linkA1] rfl linkA1
    (List.mem_singleton.mpr rfl)

/-- C6: selector normalization raises an error exactly when the relation
input is of unsupported shape (neither string, regex, structured selector
nor array), or is an array that is not homogeneously structured selectors
and contains an element that is none of string, regex or structured
selector; and a homogeneous structured-selector array is returned
unchanged in order. -/
theorem claim_C6 :
    (∀ (rels : RelInput) (mt : Option String),
      (∃ msg, makeSelectors rels mt = .error msg) ↔
        (rels = .junk ∨ ∃ items, rels = .arr items ∧
          items.all instanceOfLinkSelector = false ∧ RelItem.junk ∈ items)) ∧
    (∀ (sels : List LinkSelector) (mt : Option String),
      makeSelectors (.arr (sels.map RelItem.sel)) mt = .ok sels) := by
  refine ⟨fun rels mt => ?_, makeSelectors_homogeneous⟩
  cases rels with
  | str s => simp [makeSelectors]
  | regex r => simp [makeSelectors]
  | sel ls => simp [makeSelectors]
  | junk => simp [makeSelectors]
  | arr items =>
      by_cases hall : items.all instanceOfLinkSelector
      · constructor
        · rintro ⟨msg, hmsg⟩
          rw [show makeSelectors (.arr items) mt
              = (if items.all instanceOfLinkSelector then
                  .ok (items.filterMap RelItem.selOf)
                else mapSelectors mt items) from rfl, if_pos hall] at hmsg
          exact Except.noConfusion hmsg
        · rintro (h | ⟨items', hitems, hfalse, _⟩)
          · exact RelInput.noConfusion h
          · rw [RelInput.arr.inj hitems] at hall
            rw [hall] at hfalse
            exact Bool.noConfusion hfalse
      · rw [show makeSelectors (.arr items) mt
            = (if items.all instanceOfLinkSelector then
                .ok (items.filterMap RelItem.selOf)
              else mapSelectors mt items) from rfl, if_neg hall]
        rw [mapSelectors_error_iff]
        constructor
        · intro hmem
          exact Or.inr ⟨items, rfl, Bool.not_eq_true _ ▸ eq_false_of_ne_true hall, hmem⟩
        · rintro (h | ⟨items', hitems, _, hmem⟩)
          · exact RelInput.noConfusion h
          · rw [RelInput.arr.inj hitems]
            exact hmem

/-- C7: for every source shape that is not a link array, not an object
with an array `links`, not the `'HEAD'` sentinel and not a DOM element —
`null`/`undefined`, a number, a non-`'HEAD'` string, an object with
missing or non-array `links` — `filter` returns the empty list and raises
no error, for every relation input (well-formed or not) and media type. -/
theorem claim_C7 (env : DomEnv) (rels : RelInput) (mt : Option String) :
    filter env .nullish rels mt = .ok [] ∧
    filter env .objOther rels mt = .ok [] ∧
    (∀ n : Int, filter env (.num n) rels mt = .ok []) ∧
    (∀ s : String, s ≠ "HEAD" → filter env (.str s) rels mt = .ok []) := by
  refine ⟨rfl, rfl, fun n => rfl, fun s hs => ?_⟩
  rw [filter, if_neg (by simpa using hs)]

/-- C7 witness: a plain string source yields the empty list. -/
theorem claim_C7_witness : filter noDom (.str "hello") (.str "self") none = .ok [] :=
  (claim_C7 noDom (.str "self") none).2.2.2 "hello" (by decide)

/-- C8: when `filter` returns the empty list, `matches` is `false`,
`getTitle` is the empty string and `getUri` returns the default;
conversely `matches` is `true` on a non-empty filter, and `getTitle` then
returns the first link's `title || ''` (a `String`, never `undefined`);
and the empty-links representation filters to empty for every
successfully normalized relation. -/
theorem claim_C8 (env : DomEnv) (arg : LinkSource) (rels : RelInput) (mt : Option String)
    (d : Option String) :
    (filter env arg rels mt = .ok [] →
      matchesFn env arg rels mt = .ok false ∧
      getTitle env arg rels mt = .ok "" ∧
      getUri env arg rels mt d = .ok d) ∧
    (∀ (l : Link) (rest : List Link), filter env arg rels mt = .ok (l :: rest) →
      matchesFn env arg rels mt = .ok true ∧
      getTitle env arg rels mt = .ok (l.title.getD "")) ∧
    (∀ sels, makeSelectors rels mt = .ok sels →
      filter env (.reprWithLinks []) rels mt = .ok []) := by
  refine ⟨fun h => ?_, fun l rest h => ?_, fun sels hsels => ?_⟩
  · exact ⟨by rw [matchesFn, h]; rfl, by rw [getTitle, h]; rfl, by rw [getUri, h]; rfl⟩
  · exact ⟨by rw [matchesFn, h]; simp [Except.map], by rw [getTitle, h]; rfl⟩
  · show filterLinks [] rels mt = .ok []
    rw [filterLinks, hsels]
    rfl

/-- C8 witness: the accessors on the empty-links representation. -/
theorem claim_C8_witness :
    matchesFn noDom (.reprWithLinks []) (.str "self") none = .ok false ∧
    getTitle noDom (.reprWithLinks []) (.str "self") none = .ok "" ∧
    getUri noDom (.reprWithLinks []) (.str "self") none (some "d") = .ok (some "d") :=
  (claim_C8 noDom (.reprWithLinks []) (.str "self") none (some "d")).1 rfl

/-- C9: the transport-facing `link` call selects at most one link: when
the first filtered link exists and has a non-empty `href` it issues
exactly one HTTP request to that link's `href`, and otherwise it issues no
request and rejects with `The resource doesn't support the required
interface`. -/
theorem claim_C9 (env : DomEnv) (arg : LinkSource) (rels : RelInput) (mt : Option String) :
    (∀ (item : Link) (rest : List Link),
      filter env arg rels mt = .ok (item :: rest) → item.href ≠ "" →
        link env arg rels mt = .ok (.request item.href)) ∧
    (filter env arg rels mt = .ok [] →
      link env arg rels mt =
        .ok (.rejected "The resource doesn't support the required interface")) := by
  constructor
  · intro item rest h hhref
    rw [link, h]
    show Except.ok (if !(item.href == "") then TransportOutcome.request item.href
      else TransportOutcome.rejected interfaceErrorMsg) = _
    rw [if_pos (by simpa using hhref)]
  · intro h
    rw [link, h]
    rfl

/-- C9 witness: one request at a hit, a rejection at a miss. -/
theorem claim_C9_witness :
    link noDom (.arr [linkA1]) (.str "A") none = .ok (.request "urn:a") ∧
    link noDom (.arr []) (.str "A") none =
      .ok (.rejected "The resource doesn't support the required interface") :=
  ⟨(claim_C9 noDom (.arr [linkA1]) (.str "A") none).1 linkA1 [] rfl (by decide),
    (claim_C9 noDom (.arr []) (.str "A") none).2 rfl⟩

/-- C10: on a miss, `getUri` returns exactly the `defaultValue` argument
as passed; called without one (modelled `none` = omitted) it returns
`undefined`, not the empty string. -/
theorem claim_C10 (env : DomEnv) (arg : LinkSource) (rels : RelInput) (mt : Option String)
    (d : Option String) (h : filter env arg rels mt = .ok []) :
    getUri env arg rels mt d = .ok d ∧
    getUri env arg rels mt none = .ok none ∧
    getUri env arg rels mt none ≠ .ok (some "") := by
  refine ⟨by rw [getUri, h]; rfl, by rw [getUri, h]; rfl, ?_⟩
  rw [getUri, h]
  intro hc
  exact Option.noConfusion (Except.ok.inj hc)

/-- C10 witness: an empty source with a supplied default. -/
theorem claim_C10_witness :
    getUri noDom (.arr []) (.str "x") none (some "dv") = .ok (some "dv") ∧
    getUri noDom (.arr []) (.str "x") none none = .ok none :=
  ⟨(claim_C10 noDom (.arr []) (.str "x") none (some "dv") rfl).1,
    (claim_C10 noDom (.arr []) (.str "x") none (some "dv") rfl).2.1⟩

end SemanticLink
